import Mathlib

/-!
# Verification of the Bitcoin quantum-attack simulator core

Shallow embedding of `src/bitcoin_quantum_simulator.py`.  Python floats are
modelled as rationals (all amounts in the program and in the claims are
exactly representable), hashing (`hashlib.sha256`) is an opaque parameter
`hash : String → String` (no claim depends on hash values), and the random
draws (`random.random()`, `random.randint`) are explicit parameters.
Python's stable `list.sort` is modelled with `List.insertionSort`, which is
also a stable sort.  In-place mutation of the shared `UTXO` / `Transaction`
objects is made explicit: functions return the updated values, and the
registry/mempool-level wrappers apply the same update at the aliased
positions.
-/

namespace BitcoinQuantumSim

/-- `AddressType` enum (source lines 18–23). -/
inductive AddressType
  | P2PKH
  | P2WPKH
  | P2TR
  | P2SH_MULTISIG_2OF3
  | P2WSH_MULTISIG_3OF5
deriving DecidableEq

/-- `TxStatus` enum (source lines 25–31). -/
inductive TxStatus
  | CREATED
  | BROADCAST
  | ATTACKED
  | CONFIRMED
  | STOLEN
  | RBF_REPLACED
deriving DecidableEq

/-- `QuantumComputer` dataclass (source lines 33–45). -/
structure QuantumComputer where
  name : String
  qubits : Nat
  error_rate : ℚ
  key_derivation_time : ℚ
  success_probability : ℚ
deriving DecidableEq

/-- `UTXO` dataclass (source lines 64–79). -/
structure UTXO where
  txid : String
  vout : Nat
  address : String
  address_type : AddressType
  amount : ℚ
  privkey : String
  pubkey : String
  pubkey_hash : String
  script_pubkey : String
  spent : Bool := false
  pubkey_exposed : Bool := false
  exposure_count : Nat := 0
  created_block : Nat := 0
deriving DecidableEq

/-- An output descriptor: the `{"address": ..., "amount": ...}` dicts the
driver passes as transaction outputs. -/
structure TxOutput where
  address : String
  amount : ℚ
deriving DecidableEq

/-- One entry of the ad-hoc `tx.attack_details` list (source lines 331–337). -/
structure AttackDetail where
  attacker : String
  competing_txid : String
  attack_fee : ℚ
  destination : String
  value : ℚ
deriving DecidableEq

/-- `Transaction` dataclass (source lines 47–62), together with the
dynamically attached `attack_details` list (empty until first attack). -/
structure Transaction where
  txid : String
  inputs : List UTXO
  outputs : List TxOutput
  fee : ℚ
  pubkeys_exposed : List String
  signatures : List String
  status : TxStatus
  broadcast_time : ℚ
  rbf_enabled : Bool := false
  locktime : Nat := 0
  competing_txs : List String := []
  attack_details : List AttackDetail := []
deriving DecidableEq

/-- `QuantumAttacker` dataclass (source lines 81–90). -/
structure QuantumAttacker where
  name : String
  quantum_computer : QuantumComputer
  btc_balance : ℚ := 0
  successful_attacks : Nat := 0
  failed_attacks : Nat := 0
  total_stolen : ℚ := 0
  attack_strategy : String := "AGGRESSIVE"
deriving DecidableEq

/-- `sum(inp.amount for inp in tx.inputs)` (source lines 94, 262). -/
def Transaction.totalInputValue (tx : Transaction) : ℚ :=
  (tx.inputs.map UTXO.amount).sum

/-- `QuantumAttacker.should_attack` (source lines 92–101); the
OPPORTUNISTIC branch's `random.random()` is the explicit `coin` draw. -/
def QuantumAttacker.should_attack (self : QuantumAttacker) (tx : Transaction)
    (coin : ℚ) : Bool :=
  let total_value := tx.totalInputValue
  if self.attack_strategy = "AGGRESSIVE" then
    decide ((0.1 : ℚ) < total_value)
  else if self.attack_strategy = "SELECTIVE" then
    decide ((5 : ℚ) < total_value)
  else
    decide ((1 : ℚ) < total_value) && decide ((0.5 : ℚ) < coin)

/-- `QuantumAttacker.estimate_attack_time` (source lines 103–107):
`base_time * num_keys * 0.7`. -/
def QuantumAttacker.estimate_attack_time (self : QuantumAttacker)
    (num_keys : Nat) : ℚ :=
  let base_time := self.quantum_computer.key_derivation_time
  base_time * (num_keys : ℚ) * (0.7 : ℚ)

/-- `BitcoinNetwork` state (source lines 109–121).  The mempool dict is an
insertion-ordered association list, as Python dicts are. -/
structure BitcoinNetwork where
  current_block : Nat := 850000
  current_time : ℚ
  block_time_avg : ℚ := 600
  mempool : List (String × Transaction) := []
  utxo_set : List UTXO := []
  quantum_attackers : List QuantumAttacker := []

/-- `BitcoinNetwork.create_utxo` (source lines 123–164).  The sha256 calls
are the opaque `hash`; the two `random.random()` seeds are summarised by the
resulting fresh `txid` and `privkey` strings, passed in by the caller. -/
def BitcoinNetwork.create_utxo (self : BitcoinNetwork) (hash : String → String)
    (addr_type : AddressType) (amount : ℚ) (num_signers : Nat)
    (txid privkey : String) : BitcoinNetwork × UTXO :=
  let pubkey := hash privkey
  let pubkey_hash := (hash pubkey).take 40
  let pair : String × String :=
    match addr_type with
    | AddressType.P2PKH =>
        ("1" ++ pubkey_hash.take 33,
         "OP_DUP OP_HASH160 " ++ pubkey_hash.take 40 ++ " OP_EQUALVERIFY OP_CHECKSIG")
    | AddressType.P2WPKH =>
        ("bc1q" ++ pubkey_hash.take 38, "OP_0 " ++ pubkey_hash.take 40)
    | AddressType.P2TR =>
        ("bc1p" ++ pubkey_hash.take 58, "OP_1 " ++ pubkey_hash.take 64)
    | AddressType.P2SH_MULTISIG_2OF3 =>
        ("3" ++ pubkey_hash.take 33,
         "OP_" ++ toString num_signers ++ " ... OP_CHECKMULTISIG")
    | AddressType.P2WSH_MULTISIG_3OF5 =>
        ("3" ++ pubkey_hash.take 33,
         "OP_" ++ toString num_signers ++ " ... OP_CHECKMULTISIG")
  let utxo : UTXO :=
    { txid := txid, vout := 0, address := pair.1, address_type := addr_type,
      amount := amount, privkey := privkey, pubkey := pubkey,
      pubkey_hash := pubkey_hash, script_pubkey := pair.2,
      created_block := self.current_block }
  ({ self with utxo_set := self.utxo_set ++ [utxo] }, utxo)

/-- The per-input mutation inside `create_transaction` (source lines
177–181): first use of an unexposed key flips the flag and bumps the
counter; an already-exposed input is untouched. -/
def exposeInput (utxo : UTXO) : UTXO :=
  if utxo.pubkey_exposed then utxo
  else { utxo with pubkey_exposed := true,
                   exposure_count := utxo.exposure_count + 1 }

/-- `BitcoinNetwork.create_transaction` (source lines 166–201).  `txid`
stands for `sha256(input txids + random nonce)`.  The returned `List UTXO`
is the post-call state of the (aliased, mutated in place) input UTXOs. -/
def BitcoinNetwork.create_transaction (self : BitcoinNetwork)
    (hash : String → String) (txid : String) (inputs : List UTXO)
    (outputs : List TxOutput) (fee : ℚ) (rbf : Bool) :
    List UTXO × Transaction :=
  let inputs := inputs.map exposeInput
  let pubkeys_exposed := inputs.map UTXO.pubkey
  let signatures := inputs.map (fun utxo => hash (txid ++ utxo.privkey))
  (inputs,
   { txid := txid, inputs := inputs, outputs := outputs, fee := fee,
     pubkeys_exposed := pubkeys_exposed, signatures := signatures,
     status := TxStatus.CREATED, broadcast_time := self.current_time,
     rbf_enabled := rbf })

/-- `self.mempool[tx.txid] = tx` on a Python dict: overwrite in place if the
key exists, else append. -/
def dictInsert (m : List (String × Transaction)) (k : String)
    (v : Transaction) : List (String × Transaction) :=
  if m.any (fun p => p.1 == k) then
    m.map (fun p => if p.1 == k then (k, v) else p)
  else m ++ [(k, v)]

/-- `BitcoinNetwork.broadcast_transaction` (source lines 203–224): sets the
status to `BROADCAST` and stores by id; no precondition, no duplicate
check.  Returns the updated network and the (mutated) transaction. -/
def BitcoinNetwork.broadcast_transaction (self : BitcoinNetwork)
    (tx : Transaction) : BitcoinNetwork × Transaction :=
  let tx := { tx with status := TxStatus.BROADCAST }
  ({ self with mempool := dictInsert self.mempool tx.txid tx }, tx)

/-- `BitcoinNetwork._execute_quantum_attack` (source lines 260–340).
`now` is `time.time()` at the check, `draw` the `random.random()` success
draw, `competing_txid` the sha256 of the attack data and
`attacker_address` the randomised payout address.  Returns the updated
attacker and victim transaction; note that nothing is added to the
mempool. -/
def BitcoinNetwork.execute_quantum_attack (self : BitcoinNetwork)
    (attacker : QuantumAttacker) (tx : Transaction) (now draw : ℚ)
    (competing_txid attacker_address : String) :
    QuantumAttacker × Transaction :=
  let total_value := tx.totalInputValue
  let attack_time := attacker.estimate_attack_time tx.pubkeys_exposed.length
  let block_time_remaining := self.block_time_avg - (now - tx.broadcast_time)
  if block_time_remaining < attack_time then
    ({ attacker with failed_attacks := attacker.failed_attacks + 1 }, tx)
  else if attacker.quantum_computer.success_probability < draw then
    ({ attacker with failed_attacks := attacker.failed_attacks + 1 }, tx)
  else
    let attack_fee := min (tx.fee * 10) (total_value * (0.5 : ℚ))
    let attack_output_value := total_value - attack_fee
    (attacker,
     { tx with
         status := TxStatus.ATTACKED,
         competing_txs := tx.competing_txs ++ [competing_txid],
         attack_details := tx.attack_details ++
           [{ attacker := attacker.name, competing_txid := competing_txid,
              attack_fee := attack_fee, destination := attacker_address,
              value := attack_output_value }] })

/-- One victim step of `quantum_attack_scan` (source lines 226–258): the
scan calls `_execute_quantum_attack` on a mempool transaction; the victim
and the attacker are shared objects, so the mutation lands at their
positions in `self.mempool` and `self.quantum_attackers`. -/
def BitcoinNetwork.attackStep (self : BitcoinNetwork)
    (attacker : QuantumAttacker) (txid : String) (now draw : ℚ)
    (competing_txid attacker_address : String) : BitcoinNetwork :=
  match self.mempool.find? (fun p => p.1 == txid) with
  | none => self
  | some p =>
      let r := self.execute_quantum_attack attacker p.2 now draw
        competing_txid attacker_address
      { self with
          mempool := self.mempool.map
            (fun q => if q.1 == txid then (q.1, r.2) else q),
          quantum_attackers := self.quantum_attackers.map
            (fun a => if a.name == attacker.name then r.1 else a) }

/-- The conflict key `tuple(sorted([f"{inp.txid}:{inp.vout}" for inp in
tx.inputs]))` (source line 369). -/
def inputKey (tx : Transaction) : List String :=
  (tx.inputs.map (fun inp => inp.txid ++ ":" ++ toString inp.vout)).insertionSort (· ≤ ·)

/-- The fee ordering used on a conflict group:
`conflicting_txs.sort(key=lambda t: t.fee, reverse=True)` (source line 379).
`feeGe a b` holds when `a` sorts no later than `b`. -/
def feeGe (a b : Transaction) : Prop := b.fee ≤ a.fee

instance : DecidableRel feeGe := fun a b => inferInstanceAs (Decidable (b.fee ≤ a.fee))

instance : IsTotal Transaction feeGe := ⟨fun a b => le_total b.fee a.fee⟩

instance : IsTrans Transaction feeGe := ⟨fun _ _ _ h1 h2 => le_trans h2 h1⟩

/-- Stable descending-fee sort of a conflict group (source line 379). -/
def sortByFeeDesc (g : List Transaction) : List Transaction :=
  g.insertionSort feeGe

/-- The fee-rate priority ordering
`tx_list.sort(key=lambda t: t.fee / sum(...), reverse=True)`
(source line 355). -/
def feeRateGe (a b : Transaction) : Prop :=
  b.fee / b.totalInputValue ≤ a.fee / a.totalInputValue

instance : DecidableRel feeRateGe :=
  fun a b => inferInstanceAs (Decidable (b.fee / b.totalInputValue ≤ a.fee / a.totalInputValue))

/-- Stable descending fee-rate sort of the mempool (source lines 354–355). -/
def feeRateSort (txs : List Transaction) : List Transaction :=
  txs.insertionSort feeRateGe

/-- `double_spend_groups`: group the (sorted) transaction list by conflict
key, keys in first-appearance order, members in list order — exactly what
`defaultdict` + insertion builds (source lines 365–370). -/
def groupByInputKey (txs : List Transaction) :
    List (List String × List Transaction) :=
  txs.foldl (fun groups tx =>
    if groups.any (fun g => g.1 == inputKey tx) then
      groups.map (fun g => if g.1 == inputKey tx then (g.1, g.2 ++ [tx]) else g)
    else groups ++ [(inputKey tx, [tx])]) []

/-- Resolution of one conflict group (source lines 374–413): a singleton is
confirmed; a larger group is sorted by fee, the head wins and is marked
`STOLEN` if it was `ATTACKED` and `CONFIRMED` otherwise; the losers are
left untouched. -/
def resolveGroup (g : List Transaction) : List Transaction :=
  if 1 < g.length then
    match sortByFeeDesc g with
    | [] => []
    | winner :: losers =>
        (if winner.status = TxStatus.ATTACKED then
           { winner with status := TxStatus.STOLEN }
         else
           { winner with status := TxStatus.CONFIRMED }) :: losers
  else g.map (fun t => { t with status := TxStatus.CONFIRMED })

/-- The members of one group that are appended to `confirmed_txs`
(source lines 409, 413): only the winner (or the lone member). -/
def groupConfirmed (g : List Transaction) : List Transaction :=
  if 1 < g.length then
    match sortByFeeDesc g with
    | [] => []
    | winner :: _ =>
        [if winner.status = TxStatus.ATTACKED then
           { winner with status := TxStatus.STOLEN }
         else
           { winner with status := TxStatus.CONFIRMED }]
  else g.map (fun t => { t with status := TxStatus.CONFIRMED })

/-- The attack-detail entries credited for one group (source lines
386–399): present only when a non-singleton group's winner is `ATTACKED`. -/
def groupCredits (g : List Transaction) : List AttackDetail :=
  if 1 < g.length then
    match sortByFeeDesc g with
    | [] => []
    | winner :: _ =>
        if winner.status = TxStatus.ATTACKED then winner.attack_details else []
  else []

/-- The attacker-statistics update loop (source lines 394–399): for each
detail, every attacker whose name matches is credited. -/
def creditAttackers (attackers : List QuantumAttacker)
    (details : List AttackDetail) : List QuantumAttacker :=
  details.foldl (fun acc detail =>
    acc.map (fun a =>
      if a.name == detail.attacker then
        { a with successful_attacks := a.successful_attacks + 1,
                 total_stolen := a.total_stolen + detail.value,
                 btc_balance := a.btc_balance + detail.value }
      else a)) attackers

/-- Result of `mine_block`: the new network state, the post-resolution
state of every mempool transaction (the in-place mutations), and
`confirmed_txs`. -/
structure MineResult where
  net : BitcoinNetwork
  txs : List Transaction
  confirmed_txs : List Transaction

/-- `BitcoinNetwork.mine_block` (source lines 342–420). -/
def BitcoinNetwork.mine_block (self : BitcoinNetwork) : MineResult :=
  if self.mempool.isEmpty then
    ⟨{ self with current_block := self.current_block + 1 }, [], []⟩
  else
    let tx_list := feeRateSort (self.mempool.map Prod.snd)
    let groups := groupByInputKey tx_list
    ⟨{ self with
         mempool := [],
         current_block := self.current_block + 1,
         current_time := self.current_time + self.block_time_avg,
         quantum_attackers := creditAttackers self.quantum_attackers
           ((groups.map (fun g => groupCredits g.2)).flatten) },
     (groups.map (fun g => resolveGroup g.2)).flatten,
     (groups.map (fun g => groupConfirmed g.2)).flatten⟩

/-! ## Concrete material from the driver (source lines 442–622) -/

/-- `qc1` (source lines 456–462). -/
def qc1 : QuantumComputer :=
  { name := "IBM Quantum-X", qubits := 4000, error_rate := 0.0005,
    key_derivation_time := 120, success_probability := 0.95 }

/-- `attacker1` (source line 472). -/
def attacker1 : QuantumAttacker :=
  { name := "QuantumPirate", quantum_computer := qc1,
    attack_strategy := "AGGRESSIVE" }

/-- `attacker1` with the success probability 1.0 posited by the spec's
whale scenario. -/
def attackerP1 : QuantumAttacker :=
  { name := "QuantumPirate",
    quantum_computer := { qc1 with success_probability := 1 },
    attack_strategy := "AGGRESSIVE" }

/-- An attacker whose computer has a zero per-key break time (the
`QuantumAttacker` dataclass does not rule this out). -/
def attackerZero : QuantumAttacker :=
  { name := "Z",
    quantum_computer :=
      { name := "Zero", qubits := 0, error_rate := 0,
        key_derivation_time := 0, success_probability := 0 } }

/-- A fresh network, as `BitcoinNetwork()` but with the wall-clock start
time fixed at 0. -/
def net0 : BitcoinNetwork := { current_time := 0 }

/-- A one-UTXO wallet holding 1 BTC, used to exercise `create_transaction`
on an overspending call. -/
def utxoPoor : UTXO :=
  { txid := "u0", vout := 0, address := "addr0",
    address_type := AddressType.P2PKH, amount := 1, privkey := "priv0",
    pubkey := "pub0", pubkey_hash := "ph0", script_pubkey := "spk0" }

/-- `alice_legacy = network.create_utxo(AddressType.P2PKH, 15.5)`
(source line 497). -/
def alice_legacy : UTXO :=
  (net0.create_utxo id AddressType.P2PKH (15.5 : ℚ) 1 "txA" "privA").2

/-- The fresh UTXO behind the address-reuse scenario (source line 603). -/
def alice_reused_base : UTXO :=
  (net0.create_utxo id AddressType.P2PKH (10 : ℚ) 1 "txR" "privR").2

/-- `alice_reused` after the driver's field overrides (source lines
603–606): same pubkey as `alice_legacy`, pre-exposed, exposure count 2. -/
def alice_reused : UTXO :=
  { alice_reused_base with pubkey := alice_legacy.pubkey,
                           pubkey_exposed := true, exposure_count := 2 }

/-- A conflict-group member in `BROADCAST` status spending `utxoPoor`
with fee 1. -/
def txVictim : Transaction :=
  { txid := "t1", inputs := [utxoPoor],
    outputs := [{ address := "d1", amount := 21 }], fee := 1,
    pubkeys_exposed := ["pub0"], signatures := [],
    status := TxStatus.BROADCAST, broadcast_time := 0 }

/-- A conflicting transaction in `ATTACKED` status with the same input set
and a higher fee, carrying one attack-detail entry. -/
def txAttack : Transaction :=
  { txid := "t2", inputs := [utxoPoor],
    outputs := [{ address := "d2", amount := 20 }], fee := 2,
    pubkeys_exposed := [], signatures := [],
    status := TxStatus.ATTACKED, broadcast_time := 0,
    attack_details :=
      [{ attacker := "QuantumPirate", competing_txid := "t2",
         attack_fee := 2, destination := "d2", value := 20 }] }

/-- A network whose mempool holds the two conflicting transactions. -/
def netC1 : BitcoinNetwork :=
  { current_time := 0, mempool := [("t1", txVictim), ("t2", txAttack)],
    quantum_attackers := [attacker1] }

/-! ## The whale scenario (claims about `_execute_quantum_attack` +
`mine_block`): Carol's 22 BTC taproot UTXO, fee 0.2, attacker success
probability 1.0 (source lines 503, 551–563). -/

/-- Start state: one registered attacker with success probability 1. -/
def netS : BitcoinNetwork :=
  { current_time := 0, quantum_attackers := [attackerP1] }

/-- `carol_taproot = network.create_utxo(AddressType.P2TR, 22.0)`. -/
def carolPair : BitcoinNetwork × UTXO :=
  netS.create_utxo id AddressType.P2TR 22 1 "ctx0" "cpriv0"

def netS1 : BitcoinNetwork := carolPair.1

def carol_taproot : UTXO := carolPair.2

/-- `tx3 = network.create_transaction([carol_taproot], [...21.8], 0.2)`. -/
def tx3pair : List UTXO × Transaction :=
  netS1.create_transaction id "t3" [carol_taproot]
    [{ address := "bc1p_carol_recipient", amount := (21.8 : ℚ) }]
    (0.2 : ℚ) false

def tx3 : Transaction := tx3pair.2

/-- `network.broadcast_transaction(tx3)`. -/
def netS2 : BitcoinNetwork := (netS1.broadcast_transaction tx3).1

/-- The attack on `tx3` at time 0 with success draw 0. -/
def netS3 : BitcoinNetwork :=
  netS2.attackStep attackerP1 "t3" 0 0 "competing0" "bc1q_quantum_attacker"

/-- `network.mine_block()` after the attack. -/
def mineS : MineResult := netS3.mine_block


/-! ## Helper lemmas on the fee sort -/

lemma sortByFeeDesc_perm (g : List Transaction) : List.Perm (sortByFeeDesc g) g :=
  List.perm_insertionSort feeGe g

lemma sortByFeeDesc_length (g : List Transaction) :
    (sortByFeeDesc g).length = g.length :=
  (sortByFeeDesc_perm g).length_eq

lemma sortByFeeDesc_ne_nil {g : List Transaction} (hk : 0 < g.length) :
    sortByFeeDesc g ≠ [] := by
  intro h
  have hl := sortByFeeDesc_length g
  rw [h] at hl
  simp at hl
  omega

lemma sortByFeeDesc_head_max {g : List Transaction} {w : Transaction}
    {ls : List Transaction} (h : sortByFeeDesc g = w :: ls) :
    ∀ t ∈ g, t.fee ≤ w.fee := by
  intro t ht
  have hmem : t ∈ w :: ls := h ▸ ((sortByFeeDesc_perm g).symm.subset ht)
  have hs : List.Sorted feeGe (w :: ls) := h ▸ List.sorted_insertionSort feeGe g
  rcases List.mem_cons.mp hmem with rfl | hls
  · exact le_refl _
  · exact (List.sorted_cons.mp hs).1 t hls

lemma sortByFeeDesc_head_mem {g : List Transaction} {w : Transaction}
    {ls : List Transaction} (h : sortByFeeDesc g = w :: ls) : w ∈ g :=
  (sortByFeeDesc_perm g).subset (h ▸ List.mem_cons_self w ls)

lemma sortByFeeDesc_tail_subset {g : List Transaction} {w : Transaction}
    {ls : List Transaction} (h : sortByFeeDesc g = w :: ls) :
    ∀ t ∈ ls, t ∈ g := fun t ht =>
  (sortByFeeDesc_perm g).subset (h ▸ List.mem_cons_of_mem w ht)

lemma sortByFeeDesc_exists_cons {g : List Transaction} (hk : 0 < g.length) :
    ∃ w ls, sortByFeeDesc g = w :: ls := by
  cases hsort : sortByFeeDesc g with
  | nil => exact absurd hsort (sortByFeeDesc_ne_nil hk)
  | cons a l => exact ⟨a, l, rfl⟩

lemma resolveGroup_eq_cons {g : List Transaction} {w : Transaction}
    {ls : List Transaction} (hk : 1 < g.length) (h : sortByFeeDesc g = w :: ls) :
    resolveGroup g =
      (if w.status = TxStatus.ATTACKED then { w with status := TxStatus.STOLEN }
       else { w with status := TxStatus.CONFIRMED }) :: ls := by
  unfold resolveGroup
  rw [if_pos hk, h]

lemma groupConfirmed_eq_cons {g : List Transaction} {w : Transaction}
    {ls : List Transaction} (hk : 1 < g.length) (h : sortByFeeDesc g = w :: ls) :
    groupConfirmed g =
      [if w.status = TxStatus.ATTACKED then { w with status := TxStatus.STOLEN }
       else { w with status := TxStatus.CONFIRMED }] := by
  unfold groupConfirmed
  rw [if_pos hk, h]

lemma mem_zip_map {α : Type _} (f : α → α) :
    ∀ (l : List α) (p : α × α), p ∈ l.zip (l.map f) → p.2 = f p.1 := by
  intro l
  induction l with
  | nil => intro p hp; simp at hp
  | cons a t ih =>
      intro p hp
      rw [List.map_cons, List.zip_cons_cons] at hp
      rcases List.mem_cons.mp hp with rfl | hp
      · rfl
      · exact ih p hp

/-! ## C3 -/

/-- **C3, counterexample**: on a call where `sum(outputs) + fee = 6`
exceeds `sum(inputs) = 1`, `create_transaction` does not fail — it returns
a `CREATED` transaction (the code has no funds check and no error path) —
and it flips the unexposed input's exposure flag and bumps its counter,
contradicting both halves of the claim. -/
theorem create_transaction_overspend_counterexample :
    (([({ address := "dest", amount := 5 } : TxOutput)].map TxOutput.amount).sum + 1 >
      ([utxoPoor].map UTXO.amount).sum) ∧
    (net0.create_transaction id "t0" [utxoPoor]
        [{ address := "dest", amount := 5 }] 1 false).2.status = TxStatus.CREATED ∧
    (net0.create_transaction id "t0" [utxoPoor]
        [{ address := "dest", amount := 5 }] 1 false).1.map UTXO.pubkey_exposed = [true] ∧
    (net0.create_transaction id "t0" [utxoPoor]
        [{ address := "dest", amount := 5 }] 1 false).1.map UTXO.exposure_count = [1] := by
  refine ⟨by norm_num [utxoPoor], rfl, ?_, ?_⟩ <;>
    norm_num [BitcoinNetwork.create_transaction, exposeInput, utxoPoor]

/-- **C3, amended**: `create_transaction` performs no balance check: every
call (overspending or not) returns a `CREATED` transaction, never an
`InsufficientFunds` error, and it mutates each previously-unexposed input
UTXO (flag set, counter incremented) while leaving already-exposed inputs
unchanged. -/
theorem create_transaction_amended (net : BitcoinNetwork)
    (hash : String → String) (txid : String) (inputs : List UTXO)
    (outputs : List TxOutput) (fee : ℚ) (rbf : Bool) :
    (net.create_transaction hash txid inputs outputs fee rbf).2.status = TxStatus.CREATED ∧
    (net.create_transaction hash txid inputs outputs fee rbf).1.length = inputs.length ∧
    ∀ p ∈ inputs.zip (net.create_transaction hash txid inputs outputs fee rbf).1,
      (p.1.pubkey_exposed = false →
        p.2.pubkey_exposed = true ∧ p.2.exposure_count = p.1.exposure_count + 1) ∧
      (p.1.pubkey_exposed = true → p.2 = p.1) := by
  refine ⟨rfl, by simp [BitcoinNetwork.create_transaction], ?_⟩
  intro p hp
  have h2 : p.2 = exposeInput p.1 := mem_zip_map exposeInput inputs p hp
  constructor
  · intro hfalse
    rw [h2]
    unfold exposeInput
    rw [hfalse]
    simp
  · intro htrue
    rw [h2]
    unfold exposeInput
    rw [htrue]
    simp

/-- Witness for `create_transaction_amended` at a concrete unexposed
input. -/
theorem create_transaction_amended_witness :
    (net0.create_transaction id "t0" [utxoPoor]
        [{ address := "dest", amount := 5 }] 1 false).2.status = TxStatus.CREATED ∧
    (net0.create_transaction id "t0" [utxoPoor]
        [{ address := "dest", amount := 5 }] 1 false).1.length = [utxoPoor].length ∧
    ∀ p ∈ [utxoPoor].zip (net0.create_transaction id "t0" [utxoPoor]
        [{ address := "dest", amount := 5 }] 1 false).1,
      (p.1.pubkey_exposed = false →
        p.2.pubkey_exposed = true ∧ p.2.exposure_count = p.1.exposure_count + 1) ∧
      (p.1.pubkey_exposed = true → p.2 = p.1) :=
  create_transaction_amended net0 id "t0" [utxoPoor]
    [{ address := "dest", amount := 5 }] 1 false

/-! ## C4 -/

/-- **C4**: an attack on a `BROADCAST` transaction succeeds (the
transaction transitions to `ATTACKED`) iff the estimated attack time is at
most the remaining time before the next block AND the draw is at most the
attacker's success probability; if either condition fails, the attacker's
`failed_attacks` counter is incremented by 1 and the transaction is
entirely unchanged (status still `BROADCAST`). -/
theorem execute_quantum_attack_success_iff
    (net : BitcoinNetwork) (attacker : QuantumAttacker) (tx : Transaction)
    (now draw : ℚ) (cid addr : String)
    (hstat : tx.status = TxStatus.BROADCAST) :
    ((net.execute_quantum_attack attacker tx now draw cid addr).2.status = TxStatus.ATTACKED ↔
      (attacker.estimate_attack_time tx.pubkeys_exposed.length ≤
          net.block_time_avg - (now - tx.broadcast_time) ∧
        draw ≤ attacker.quantum_computer.success_probability)) ∧
    (¬ (attacker.estimate_attack_time tx.pubkeys_exposed.length ≤
          net.block_time_avg - (now - tx.broadcast_time) ∧
        draw ≤ attacker.quantum_computer.success_probability) →
      ((net.execute_quantum_attack attacker tx now draw cid addr).1.failed_attacks =
          attacker.failed_attacks + 1 ∧
        (net.execute_quantum_attack attacker tx now draw cid addr).2 = tx)) := by
  unfold BitcoinNetwork.execute_quantum_attack
  dsimp only
  by_cases h1 : net.block_time_avg - (now - tx.broadcast_time) <
      attacker.estimate_attack_time tx.pubkeys_exposed.length
  · rw [if_pos h1]
    constructor
    · constructor
      · intro habs
        rw [hstat] at habs
        exact absurd habs (by decide)
      · intro ⟨ha, _⟩
        exact absurd ha (not_le.mpr h1)
    · intro _
      exact ⟨rfl, rfl⟩
  · rw [if_neg h1]
    by_cases h2 : attacker.quantum_computer.success_probability < draw
    · rw [if_pos h2]
      constructor
      · constructor
        · intro habs
          rw [hstat] at habs
          exact absurd habs (by decide)
        · intro ⟨_, hb⟩
          exact absurd hb (not_le.mpr h2)
      · intro _
        exact ⟨rfl, rfl⟩
    · rw [if_neg h2]
      constructor
      · constructor
        · intro _
          exact ⟨not_lt.mp h1, not_lt.mp h2⟩
        · intro _
          rfl
      · intro habs
        exact absurd ⟨not_lt.mp h1, not_lt.mp h2⟩ habs

/-- Witness for `execute_quantum_attack_success_iff`: the concrete netC1
attack run (1 exposed key, 84s ≤ 600s, draw 0.5 ≤ 0.95). -/
theorem execute_quantum_attack_success_iff_witness :
    ((netC1.execute_quantum_attack attacker1 txVictim 0 (0.5 : ℚ) "cid" "addr").2.status =
        TxStatus.ATTACKED ↔
      (attacker1.estimate_attack_time txVictim.pubkeys_exposed.length ≤
          netC1.block_time_avg - (0 - txVictim.broadcast_time) ∧
        (0.5 : ℚ) ≤ attacker1.quantum_computer.success_probability)) ∧
    (¬ (attacker1.estimate_attack_time txVictim.pubkeys_exposed.length ≤
          netC1.block_time_avg - (0 - txVictim.broadcast_time) ∧
        (0.5 : ℚ) ≤ attacker1.quantum_computer.success_probability) →
      ((netC1.execute_quantum_attack attacker1 txVictim 0 (0.5 : ℚ) "cid" "addr").1.failed_attacks =
          attacker1.failed_attacks + 1 ∧
        (netC1.execute_quantum_attack attacker1 txVictim 0 (0.5 : ℚ) "cid" "addr").2 = txVictim)) :=
  execute_quantum_attack_success_iff netC1 attacker1 txVictim 0 (0.5 : ℚ) "cid" "addr" rfl

/-! ## C6 -/

/-- A transaction already sitting in the mempool under id `"d"`. -/
def txDup1 : Transaction :=
  { txid := "d", inputs := [], outputs := [], fee := 0, pubkeys_exposed := [],
    signatures := [], status := TxStatus.BROADCAST, broadcast_time := 0 }

/-- A different transaction with the same id `"d"`, not in `CREATED`
status. -/
def txDup2 : Transaction :=
  { txid := "d", inputs := [], outputs := [], fee := 3, pubkeys_exposed := [],
    signatures := [], status := TxStatus.CONFIRMED, broadcast_time := 0 }

/-- A network whose mempool already holds id `"d"`. -/
def netDup : BitcoinNetwork :=
  { current_time := 0, mempool := [("d", txDup1)] }

/-- **C6, counterexample**: broadcasting a transaction whose id is already
in the mempool is accepted — the existing entry is overwritten, no
`DuplicateId` error exists — and the incoming status (`CONFIRMED`, not
`CREATED`) is not checked: the status is unconditionally set to
`BROADCAST`. -/
theorem broadcast_duplicate_counterexample :
    txDup2.status ≠ TxStatus.CREATED ∧
    netDup.mempool.map Prod.fst = ["d"] ∧
    (netDup.broadcast_transaction txDup2).1.mempool =
      [("d", { txDup2 with status := TxStatus.BROADCAST })] ∧
    (netDup.broadcast_transaction txDup2).2.status = TxStatus.BROADCAST := by
  refine ⟨by decide, rfl, ?_, rfl⟩
  norm_num [BitcoinNetwork.broadcast_transaction, dictInsert, netDup, txDup1, txDup2]

/-- **C6, amended**: `broadcast_transaction` has no `CREATED` precondition
and no `DuplicateId` rejection: it unconditionally sets the status to
`BROADCAST` and stores the transaction under its id — overwriting every
entry already stored under that id, and appending the id otherwise. -/
theorem broadcast_transaction_amended (net : BitcoinNetwork) (tx : Transaction) :
    (net.broadcast_transaction tx).2 = { tx with status := TxStatus.BROADCAST } ∧
    (∀ p ∈ (net.broadcast_transaction tx).1.mempool,
      p.1 = tx.txid → p.2 = { tx with status := TxStatus.BROADCAST }) ∧
    (∃ p ∈ (net.broadcast_transaction tx).1.mempool, p.1 = tx.txid) ∧
    ((net.broadcast_transaction tx).1.mempool.map Prod.fst =
      if net.mempool.any (fun p => p.1 == tx.txid) then net.mempool.map Prod.fst
      else net.mempool.map Prod.fst ++ [tx.txid]) := by
  refine ⟨rfl, ?_, ?_, ?_⟩
  · intro p hp hid
    unfold BitcoinNetwork.broadcast_transaction dictInsert at hp
    dsimp only at hp
    split at hp
    · obtain ⟨q, _, hq⟩ := List.mem_map.mp hp
      by_cases hqk : q.1 == tx.txid
      · rw [if_pos hqk] at hq
        rw [← hq]
      · rw [if_neg hqk] at hq
        subst hq
        exact absurd (by exact beq_iff_eq.mpr hid) hqk
    · rcases List.mem_append.mp hp with hold | hnew
      · rename_i hany
        have : ¬ (net.mempool.any (fun p => p.1 == tx.txid) = true) := hany
        rw [List.any_eq_true] at this
        push_neg at this
        exact absurd (beq_iff_eq.mpr hid) (this p hold)
      · rw [List.mem_singleton.mp hnew]
  · unfold BitcoinNetwork.broadcast_transaction dictInsert
    dsimp only
    split
    · rename_i hany
      obtain ⟨q, hq, hqk⟩ := List.any_eq_true.mp hany
      refine ⟨(tx.txid, { tx with status := TxStatus.BROADCAST }), ?_, rfl⟩
      exact List.mem_map.mpr ⟨q, hq, by rw [if_pos hqk]⟩
    · exact ⟨(tx.txid, { tx with status := TxStatus.BROADCAST }),
        List.mem_append.mpr (Or.inr (List.mem_singleton.mpr rfl)), rfl⟩
  · unfold BitcoinNetwork.broadcast_transaction dictInsert
    dsimp only
    split
    · rename_i hany
      rw [List.map_map]
      apply List.map_congr_left
      intro p _
      by_cases hpk : p.1 == tx.txid
      · simp only [Function.comp_apply, if_pos hpk]
        exact (beq_iff_eq.mp hpk).symm
      · simp only [Function.comp_apply, if_neg hpk]
    · rename_i hany
      simp

/-- Witness for `broadcast_transaction_amended` at the concrete duplicate
broadcast. -/
theorem broadcast_transaction_amended_witness :
    (netDup.broadcast_transaction txDup2).2 =
      { txDup2 with status := TxStatus.BROADCAST } ∧
    (∀ p ∈ (netDup.broadcast_transaction txDup2).1.mempool,
      p.1 = txDup2.txid → p.2 = { txDup2 with status := TxStatus.BROADCAST }) ∧
    (∃ p ∈ (netDup.broadcast_transaction txDup2).1.mempool, p.1 = txDup2.txid) ∧
    ((netDup.broadcast_transaction txDup2).1.mempool.map Prod.fst =
      if netDup.mempool.any (fun p => p.1 == txDup2.txid) then
        netDup.mempool.map Prod.fst
      else netDup.mempool.map Prod.fst ++ [txDup2.txid]) :=
  broadcast_transaction_amended netDup txDup2

/-! ## C7 -/

/-- **C7**: exposure is monotonic.  A normal spend through
`create_transaction` flips an unexposed input's flag `false→true` exactly
once, incrementing the counter at that moment; an already-exposed input is
left completely unchanged (no re-increment, never reset).  The pre-exposed
address-reuse UTXO `alice_reused` is constructed with `exposed = true` and
`exposure_count = 2 ≥ 2`, and spending it does not change it.  No other
core operation (`broadcast_transaction`, the attack step, `mine_block`)
touches the UTXO registry at all. -/
theorem exposure_monotonic :
    (∀ u : UTXO, u.pubkey_exposed = false →
      (exposeInput u).pubkey_exposed = true ∧
        (exposeInput u).exposure_count = u.exposure_count + 1) ∧
    (∀ u : UTXO, u.pubkey_exposed = true → exposeInput u = u) ∧
    (∀ u : UTXO, u.pubkey_exposed = true → (exposeInput u).pubkey_exposed = true) ∧
    (alice_reused.pubkey_exposed = true ∧ 2 ≤ alice_reused.exposure_count ∧
      exposeInput alice_reused = alice_reused) ∧
    (∀ (net : BitcoinNetwork) (tx : Transaction),
      (net.broadcast_transaction tx).1.utxo_set = net.utxo_set) ∧
    (∀ (net : BitcoinNetwork) (a : QuantumAttacker) (txid : String)
        (now draw : ℚ) (cid addr : String),
      (net.attackStep a txid now draw cid addr).utxo_set = net.utxo_set) ∧
    (∀ net : BitcoinNetwork, net.mine_block.net.utxo_set = net.utxo_set) := by
  refine ⟨?_, ?_, ?_, ⟨rfl, le_refl 2, rfl⟩, ?_, ?_, ?_⟩
  · intro u hu
    unfold exposeInput
    rw [hu]
    simp
  · intro u hu
    unfold exposeInput
    rw [hu]
    simp
  · intro u hu
    unfold exposeInput
    rw [hu]
    simpa using hu
  · intro net tx
    rfl
  · intro net a txid now draw cid addr
    unfold BitcoinNetwork.attackStep
    split <;> rfl
  · intro net
    unfold BitcoinNetwork.mine_block
    split <;> rfl

/-- Witness for `exposure_monotonic` at the concrete unexposed `utxoPoor`
and the concrete exposed `alice_reused`. -/
theorem exposure_monotonic_witness :
    ((exposeInput utxoPoor).pubkey_exposed = true ∧
      (exposeInput utxoPoor).exposure_count = utxoPoor.exposure_count + 1) ∧
    exposeInput alice_reused = alice_reused :=
  ⟨exposure_monotonic.1 utxoPoor rfl, exposure_monotonic.2.1 alice_reused rfl⟩

/-! ## C9 -/

/-- **C9, counterexample**: for the concrete attacker of the simulation
(per-key break time 120), `EstimateAttackTime 0 = 0` is not strictly
positive, refuting "strictly positive for every key count"; and for an
attacker whose per-key break time is 0 (not excluded by the dataclass) the
function is constant, refuting monotonic increase for every attacker. -/
theorem estimate_attack_time_counterexample :
    (attacker1.estimate_attack_time 0 = 0 ∧
      ¬ 0 < attacker1.estimate_attack_time 0) ∧
    attackerZero.estimate_attack_time 1 = attackerZero.estimate_attack_time 2 := by
  norm_num [QuantumAttacker.estimate_attack_time, attacker1, attackerZero, qc1]

/-- **C9, amended**: `EstimateAttackTime(numKeys)` always equals
`perKeyBreakTime × numKeys × 0.7`; and for every attacker whose per-key
break time is positive it is strictly increasing in the key count and
strictly positive for every key count `n ≥ 1`. -/
theorem estimate_attack_time_amended (a : QuantumAttacker) :
    (∀ n : Nat, a.estimate_attack_time n =
      a.quantum_computer.key_derivation_time * (n : ℚ) * (0.7 : ℚ)) ∧
    (0 < a.quantum_computer.key_derivation_time →
      (StrictMono fun n : Nat => a.estimate_attack_time n) ∧
      ∀ n : Nat, 1 ≤ n → 0 < a.estimate_attack_time n) := by
  constructor
  · intro n
    rfl
  · intro hk
    constructor
    · intro m n hmn
      unfold QuantumAttacker.estimate_attack_time
      dsimp only
      have hcast : (m : ℚ) < (n : ℚ) := by exact_mod_cast hmn
      have h07 : (0 : ℚ) < 0.7 := by norm_num
      exact mul_lt_mul_of_pos_right (mul_lt_mul_of_pos_left hcast hk) h07
    · intro n hn
      unfold QuantumAttacker.estimate_attack_time
      dsimp only
      have hpos : (0 : ℚ) < (n : ℚ) := by exact_mod_cast hn
      have h07 : (0 : ℚ) < 0.7 := by norm_num
      exact mul_pos (mul_pos hk hpos) h07

/-- Witness for `estimate_attack_time_amended` at the concrete `attacker1`
(per-key break time 120 > 0). -/
theorem estimate_attack_time_amended_witness :
    (0 : ℚ) < attacker1.quantum_computer.key_derivation_time ∧
    attacker1.estimate_attack_time 3 =
      attacker1.quantum_computer.key_derivation_time * (3 : ℚ) * (0.7 : ℚ) ∧
    ((StrictMono fun n : Nat => attacker1.estimate_attack_time n) ∧
      ∀ n : Nat, 1 ≤ n → 0 < attacker1.estimate_attack_time n) :=
  ⟨by norm_num [attacker1, qc1],
   (estimate_attack_time_amended attacker1).1 3,
   (estimate_attack_time_amended attacker1).2 (by norm_num [attacker1, qc1])⟩

/-! ## C1 -/

/-- **C1**: for every conflict group of size `k > 1` formed at block
selection (whose members, coming from `broadcast_transaction` /
`_execute_quantum_attack`, are in `BROADCAST` or `ATTACKED` status),
resolution produces exactly one member in a terminal status (`CONFIRMED`
or `STOLEN`): it is a maximal-fee member, it is the sole entry of the
group's contribution to `confirmed_txs`, and the other `k − 1` members are
returned unchanged — still non-terminal, hence excluded from the confirmed
set without transitioning to any terminal enum value. -/
theorem conflict_group_unique_winner
    (net : BitcoinNetwork) (key : List String) (g : List Transaction)
    (hg : (key, g) ∈ groupByInputKey (feeRateSort (net.mempool.map Prod.snd)))
    (hk : 1 < g.length)
    (hstat : ∀ t ∈ g, t.status = TxStatus.BROADCAST ∨ t.status = TxStatus.ATTACKED) :
    ∃ w rest,
      resolveGroup g = w :: rest ∧
      groupConfirmed g = [w] ∧
      (w.status = TxStatus.CONFIRMED ∨ w.status = TxStatus.STOLEN) ∧
      (∀ t ∈ g, t.fee ≤ w.fee) ∧
      rest.length = g.length - 1 ∧
      (∀ t ∈ rest, t ∈ g ∧ t.status ≠ TxStatus.CONFIRMED ∧
        t.status ≠ TxStatus.STOLEN ∧ t.status ≠ TxStatus.RBF_REPLACED) ∧
      (resolveGroup g).countP
        (fun t => decide (t.status = TxStatus.CONFIRMED) ||
          decide (t.status = TxStatus.STOLEN)) = 1 := by
  obtain ⟨w0, ls, h⟩ := sortByFeeDesc_exists_cons (g := g) (by omega)
  have hrest : ∀ t ∈ ls, t ∈ g ∧ t.status ≠ TxStatus.CONFIRMED ∧
      t.status ≠ TxStatus.STOLEN ∧ t.status ≠ TxStatus.RBF_REPLACED := by
    intro t ht
    have htg := sortByFeeDesc_tail_subset h t ht
    rcases hstat t htg with h1 | h1 <;> rw [h1] <;>
      exact ⟨htg, by decide, by decide, by decide⟩
  refine ⟨if w0.status = TxStatus.ATTACKED then { w0 with status := TxStatus.STOLEN }
      else { w0 with status := TxStatus.CONFIRMED }, ls,
    resolveGroup_eq_cons hk h, groupConfirmed_eq_cons hk h, ?_, ?_, ?_, hrest, ?_⟩
  · split <;> simp
  · intro t ht
    have hle := sortByFeeDesc_head_max h t ht
    split <;> exact hle
  · have hlen : (w0 :: ls).length = g.length := by rw [← h, sortByFeeDesc_length]
    simp only [List.length_cons] at hlen
    omega
  · rw [resolveGroup_eq_cons hk h, List.countP_cons]
    have hzero : ls.countP
        (fun t => decide (t.status = TxStatus.CONFIRMED) ||
          decide (t.status = TxStatus.STOLEN)) = 0 := by
      rw [List.countP_eq_zero]
      intro t ht
      obtain ⟨_, h1, h2, _⟩ := hrest t ht
      simp [h1, h2]
    rw [hzero]
    split <;> simp

/-- Witness for `conflict_group_unique_winner`: the concrete two-element
conflict group of `netC1`. -/
theorem conflict_group_unique_winner_witness :
    ((inputKey txVictim, [txAttack, txVictim]) ∈
      groupByInputKey (feeRateSort (netC1.mempool.map Prod.snd))) ∧
    (1 < ([txAttack, txVictim] : List Transaction).length) ∧
    (∀ t ∈ ([txAttack, txVictim] : List Transaction),
      t.status = TxStatus.BROADCAST ∨ t.status = TxStatus.ATTACKED) ∧
    (∃ w rest,
      resolveGroup [txAttack, txVictim] = w :: rest ∧
      groupConfirmed [txAttack, txVictim] = [w] ∧
      (w.status = TxStatus.CONFIRMED ∨ w.status = TxStatus.STOLEN) ∧
      (∀ t ∈ ([txAttack, txVictim] : List Transaction), t.fee ≤ w.fee) ∧
      rest.length = ([txAttack, txVictim] : List Transaction).length - 1 ∧
      (∀ t ∈ rest, t ∈ ([txAttack, txVictim] : List Transaction) ∧
        t.status ≠ TxStatus.CONFIRMED ∧
        t.status ≠ TxStatus.STOLEN ∧ t.status ≠ TxStatus.RBF_REPLACED) ∧
      (resolveGroup [txAttack, txVictim]).countP
        (fun t => decide (t.status = TxStatus.CONFIRMED) ||
          decide (t.status = TxStatus.STOLEN)) = 1) := by
  have hg : (inputKey txVictim, [txAttack, txVictim]) ∈
      groupByInputKey (feeRateSort (netC1.mempool.map Prod.snd)) := by
    set_option maxRecDepth 4000 in
    norm_num [groupByInputKey, feeRateSort, feeRateGe, inputKey, netC1,
      txAttack, txVictim, utxoPoor, Transaction.totalInputValue]
  have hstat : ∀ t ∈ ([txAttack, txVictim] : List Transaction),
      t.status = TxStatus.BROADCAST ∨ t.status = TxStatus.ATTACKED := by
    intro t ht
    rcases List.mem_cons.mp ht with rfl | ht
    · exact Or.inr rfl
    · rcases List.mem_singleton.mp ht with rfl
      exact Or.inl rfl
  exact ⟨hg, by norm_num, hstat,
    conflict_group_unique_winner netC1 (inputKey txVictim) [txAttack, txVictim]
      hg (by norm_num) hstat⟩

/-! ## C5 -/

/-- **C5**: a transaction can only come out of block-group resolution in
`STOLEN` status if the group had size `> 1`, the transaction entered it in
`ATTACKED` status and it had a maximal fee in the group (it won); and no
other core operation produces `STOLEN`: `create_transaction` yields
`CREATED`, `broadcast_transaction` yields `BROADCAST`, and
`_execute_quantum_attack` yields either the unchanged status or
`ATTACKED`. -/
theorem stolen_requires_attacked_winner :
    (∀ (g : List Transaction) (t : Transaction),
      (∀ u ∈ g, u.status = TxStatus.BROADCAST ∨ u.status = TxStatus.ATTACKED) →
      t ∈ resolveGroup g → t.status = TxStatus.STOLEN →
      1 < g.length ∧ ∃ t0 ∈ g, t0.status = TxStatus.ATTACKED ∧
        t0.txid = t.txid ∧ ∀ u ∈ g, u.fee ≤ t0.fee) ∧
    (∀ (net : BitcoinNetwork) (tx : Transaction),
      (net.broadcast_transaction tx).2.status = TxStatus.BROADCAST) ∧
    (∀ (net : BitcoinNetwork) (hash : String → String) (txid : String)
        (inputs : List UTXO) (outputs : List TxOutput) (fee : ℚ) (rbf : Bool),
      (net.create_transaction hash txid inputs outputs fee rbf).2.status =
        TxStatus.CREATED) ∧
    (∀ (net : BitcoinNetwork) (attacker : QuantumAttacker) (tx : Transaction)
        (now draw : ℚ) (cid addr : String),
      (net.execute_quantum_attack attacker tx now draw cid addr).2.status = tx.status ∨
      (net.execute_quantum_attack attacker tx now draw cid addr).2.status =
        TxStatus.ATTACKED) := by
  refine ⟨?_, fun net tx => rfl, fun net hash txid inputs outputs fee rbf => rfl, ?_⟩
  · intro g t hstat ht hstolen
    by_cases hk : 1 < g.length
    · obtain ⟨w0, ls, h⟩ := sortByFeeDesc_exists_cons (g := g) (by omega)
      rw [resolveGroup_eq_cons hk h] at ht
      rcases List.mem_cons.mp ht with heq | hls
      · by_cases hw : w0.status = TxStatus.ATTACKED
        · rw [if_pos hw] at heq
          refine ⟨hk, w0, sortByFeeDesc_head_mem h, hw, ?_, sortByFeeDesc_head_max h⟩
          rw [heq]
        · rw [if_neg hw] at heq
          rw [heq] at hstolen
          simp at hstolen
      · have htg := sortByFeeDesc_tail_subset h t hls
        rcases hstat t htg with h1 | h1 <;> rw [h1] at hstolen <;>
          exact absurd hstolen (by decide)
    · unfold resolveGroup at ht
      rw [if_neg hk] at ht
      obtain ⟨u, _, hu⟩ := List.mem_map.mp ht
      rw [← hu] at hstolen
      simp at hstolen
  · intro net attacker tx now draw cid addr
    unfold BitcoinNetwork.execute_quantum_attack
    dsimp only
    split
    · exact Or.inl rfl
    · split
      · exact Or.inl rfl
      · exact Or.inr rfl

/-- Witness for `stolen_requires_attacked_winner`: the concrete group
`[txAttack, txVictim]` whose resolution makes the attacked higher-fee
member `STOLEN`. -/
theorem stolen_requires_attacked_winner_witness :
    (∀ u ∈ ([txAttack, txVictim] : List Transaction),
      u.status = TxStatus.BROADCAST ∨ u.status = TxStatus.ATTACKED) ∧
    ({ txAttack with status := TxStatus.STOLEN } ∈
      resolveGroup [txAttack, txVictim]) ∧
    ({ txAttack with status := TxStatus.STOLEN } : Transaction).status =
      TxStatus.STOLEN ∧
    (1 < ([txAttack, txVictim] : List Transaction).length ∧
      ∃ t0 ∈ ([txAttack, txVictim] : List Transaction),
        t0.status = TxStatus.ATTACKED ∧
        t0.txid = ({ txAttack with status := TxStatus.STOLEN } : Transaction).txid ∧
        ∀ u ∈ ([txAttack, txVictim] : List Transaction), u.fee ≤ t0.fee) := by
  have hstat : ∀ u ∈ ([txAttack, txVictim] : List Transaction),
      u.status = TxStatus.BROADCAST ∨ u.status = TxStatus.ATTACKED := by
    intro u hu
    rcases List.mem_cons.mp hu with rfl | hu
    · exact Or.inr rfl
    · rcases List.mem_singleton.mp hu with rfl
      exact Or.inl rfl
  have hmem : { txAttack with status := TxStatus.STOLEN } ∈
      resolveGroup [txAttack, txVictim] := by
    set_option maxRecDepth 4000 in
    norm_num [resolveGroup, sortByFeeDesc, feeGe, txAttack, txVictim]
  exact ⟨hstat, hmem, rfl,
    stolen_requires_attacked_winner.1 [txAttack, txVictim]
      { txAttack with status := TxStatus.STOLEN } hstat hmem rfl⟩

/-! ## C2 -/

/-- **C2** (evaluating the code at the failing input): after the
successful attack on `tx3`, the victim is `ATTACKED` and the competing
transaction id has been appended to `tx3.competing_txs` — but no competing
transaction was inserted into the mempool: the mempool still contains only
`"t3"`, `"competing0"` is not among its keys, and the conflict grouping at
the next block selection yields a single singleton group. -/
theorem competing_tx_not_inserted :
    netS3.mempool.map Prod.fst = ["t3"] ∧
    (netS3.mempool.map Prod.snd).map Transaction.status = [TxStatus.ATTACKED] ∧
    (netS3.mempool.map Prod.snd).map Transaction.competing_txs = [["competing0"]] ∧
    (netS3.mempool.map Prod.fst).contains "competing0" = false ∧
    (groupByInputKey (feeRateSort (netS3.mempool.map Prod.snd))).map
      (fun g => g.2.length) = [1] := by
  refine ⟨?_, ?_, ?_, ?_, ?_⟩ <;>
  · set_option maxRecDepth 8000 in
    norm_num [String.ext_iff, netS3, netS2, netS1, netS, tx3, tx3pair, carol_taproot, carolPair,
      attackerP1, qc1, BitcoinNetwork.attackStep,
      BitcoinNetwork.execute_quantum_attack, BitcoinNetwork.broadcast_transaction,
      BitcoinNetwork.create_transaction, BitcoinNetwork.create_utxo, dictInsert,
      exposeInput, QuantumAttacker.estimate_attack_time, Transaction.totalInputValue,
      groupByInputKey, feeRateSort, feeRateGe, inputKey] <;> decide

/-! ## C8 -/

/-- **C8** (evaluating the code at the failing input): in the whale
scenario (input 22.0, fee 0.2, success probability 1.0, attack time 84s <
600s remaining) the attack-fee formula of the claim does hold —
`min(10 × 0.2, 0.5 × 22.0) = 2.0` and the recorded attack detail pays the
attacker `20.0` — and the victim transitions `BROADCAST → ATTACKED`; but
at block selection the victim (a singleton conflict group, since the
competing transaction was never inserted) is `CONFIRMED`, not `STOLEN`,
and the attacker's `total_stolen`, `successful_attacks` and balance all
remain 0. -/
theorem whale_scenario_code_divergence :
    min ((0.2 : ℚ) * 10) (22 * (0.5 : ℚ)) = 2 ∧
    (netS3.mempool.map Prod.snd).map Transaction.attack_details =
      [[{ attacker := "QuantumPirate", competing_txid := "competing0",
          attack_fee := 2, destination := "bc1q_quantum_attacker",
          value := 20 }]] ∧
    tx3.status = TxStatus.CREATED ∧
    (netS2.mempool.map Prod.snd).map Transaction.status = [TxStatus.BROADCAST] ∧
    (netS3.mempool.map Prod.snd).map Transaction.status = [TxStatus.ATTACKED] ∧
    mineS.txs.map Transaction.status = [TxStatus.CONFIRMED] ∧
    mineS.net.quantum_attackers.map QuantumAttacker.total_stolen = [0] ∧
    mineS.net.quantum_attackers.map QuantumAttacker.successful_attacks = [0] ∧
    mineS.net.quantum_attackers.map QuantumAttacker.btc_balance = [0] := by
  refine ⟨by norm_num, ?_, rfl, ?_, ?_, ?_, ?_, ?_, ?_⟩ <;>
  · set_option maxRecDepth 8000 in
    norm_num [mineS, BitcoinNetwork.mine_block, feeRateSort, feeRateGe,
      groupByInputKey, inputKey, resolveGroup, groupConfirmed, groupCredits,
      creditAttackers, sortByFeeDesc, feeGe,
      netS3, netS2, netS1, netS, tx3, tx3pair, carol_taproot, carolPair,
      attackerP1, qc1, BitcoinNetwork.attackStep,
      BitcoinNetwork.execute_quantum_attack, BitcoinNetwork.broadcast_transaction,
      BitcoinNetwork.create_transaction, BitcoinNetwork.create_utxo, dictInsert,
      exposeInput, QuantumAttacker.estimate_attack_time, Transaction.totalInputValue]

/-! ## C10 -/

/-- The in-place registry effect of `create_transaction` when the driver
passes aliases of the registry entries at positions `idxs`: those entries
are exposed in place, everything else is untouched. -/
def exposeAt (idxs : List Nat) : Nat → List UTXO → List UTXO
  | _, [] => []
  | i, utxo :: rest =>
      (if i ∈ idxs then exposeInput utxo else utxo) :: exposeAt idxs (i + 1) rest

/-- `create_transaction` called, as the driver does, on (aliases of) the
registry entries at positions `idxs`: returns the updated network (the
registry entries mutated in place) and the built transaction. -/
def BitcoinNetwork.create_transaction_net (self : BitcoinNetwork)
    (hash : String → String) (txid : String) (idxs : List Nat)
    (outputs : List TxOutput) (fee : ℚ) (rbf : Bool) :
    BitcoinNetwork × Transaction :=
  let inputs := idxs.filterMap (fun i => self.utxo_set[i]?)
  ({ self with utxo_set := exposeAt idxs 0 self.utxo_set },
   (self.create_transaction hash txid inputs outputs fee rbf).2)

/-- One core operation on the network state: `CreateOutput`,
`BuildTransaction`, `Broadcast`, one attack of the scan, or `MineBlock`. -/
inductive NetStep : BitcoinNetwork → BitcoinNetwork → Prop
  | create_utxo (net : BitcoinNetwork) (hash : String → String)
      (addr_type : AddressType) (amount : ℚ) (num_signers : Nat)
      (txid privkey : String) :
      NetStep net (net.create_utxo hash addr_type amount num_signers txid privkey).1
  | create_transaction (net : BitcoinNetwork) (hash : String → String)
      (txid : String) (idxs : List Nat) (outputs : List TxOutput) (fee : ℚ)
      (rbf : Bool) :
      NetStep net (net.create_transaction_net hash txid idxs outputs fee rbf).1
  | broadcast (net : BitcoinNetwork) (tx : Transaction) :
      NetStep net (net.broadcast_transaction tx).1
  | attack (net : BitcoinNetwork) (a : QuantumAttacker) (txid : String)
      (now draw : ℚ) (cid addr : String) :
      NetStep net (net.attackStep a txid now draw cid addr)
  | mine (net : BitcoinNetwork) : NetStep net net.mine_block.net

/-- No UTXO of the registry is marked spent. -/
def SpentFree (net : BitcoinNetwork) : Prop :=
  ∀ u ∈ net.utxo_set, u.spent = false

lemma exposeInput_spent (u : UTXO) : (exposeInput u).spent = u.spent := by
  unfold exposeInput
  split <;> rfl

lemma exposeAt_spent (idxs : List Nat) :
    ∀ (l : List UTXO) (i : Nat), (∀ u ∈ l, u.spent = false) →
      ∀ u ∈ exposeAt idxs i l, u.spent = false := by
  intro l
  induction l with
  | nil =>
      intro i _ u hu
      simp [exposeAt] at hu
  | cons a t ih =>
      intro i hl u hu
      rw [exposeAt] at hu
      rcases List.mem_cons.mp hu with rfl | hu
      · by_cases hi : i ∈ idxs
        · rw [if_pos hi, exposeInput_spent]
          exact hl a (List.mem_cons_self a t)
        · rw [if_neg hi]
          exact hl a (List.mem_cons_self a t)
      · exact ih (i + 1) (fun v hv => hl v (List.mem_cons_of_mem a hv)) u hu

lemma netStep_spentFree {net net' : BitcoinNetwork} (h : NetStep net net')
    (h0 : SpentFree net) : SpentFree net' := by
  cases h with
  | create_utxo hash addr_type amount num_signers txid privkey =>
      intro u hu
      have e : (net.create_utxo hash addr_type amount num_signers txid privkey).1.utxo_set =
          net.utxo_set ++
            [(net.create_utxo hash addr_type amount num_signers txid privkey).2] := rfl
      rw [e] at hu
      rcases List.mem_append.mp hu with h1 | h1
      · exact h0 u h1
      · rw [List.mem_singleton.mp h1]
        rfl
  | create_transaction hash txid idxs outputs fee rbf =>
      intro u hu
      have e : (net.create_transaction_net hash txid idxs outputs fee rbf).1.utxo_set =
          exposeAt idxs 0 net.utxo_set := rfl
      rw [e] at hu
      exact exposeAt_spent idxs net.utxo_set 0 h0 u hu
  | broadcast tx => exact h0
  | attack a txid now draw cid addr =>
      intro u hu
      have e : (net.attackStep a txid now draw cid addr).utxo_set = net.utxo_set := by
        unfold BitcoinNetwork.attackStep
        split <;> rfl
      rw [e] at hu
      exact h0 u hu
  | mine =>
      intro u hu
      have e : net.mine_block.net.utxo_set = net.utxo_set := by
        unfold BitcoinNetwork.mine_block
        split <;> rfl
      rw [e] at hu
      exact h0 u hu

/-- **C10**: no core operation ever sets a registry UTXO's `spent` field:
starting from any state where every registry UTXO is unspent (e.g. the
initial empty registry), after any sequence of core operations every
registry UTXO is still unspent — so the "all inputs unspent" precondition
of `BuildTransaction`, which the code never checks, is also never
violated-by-state. -/
theorem spent_never_set (net net' : BitcoinNetwork)
    (h : Relation.ReflTransGen NetStep net net') (h0 : SpentFree net) :
    SpentFree net' := by
  induction h with
  | refl => exact h0
  | tail _ step ih => exact netStep_spentFree step ih

/-- Witness for `spent_never_set`: one concrete `create_utxo` step from
the fresh network. -/
theorem spent_never_set_witness :
    SpentFree (net0.create_utxo id AddressType.P2TR 22 1 "w0" "wpriv").1 :=
  spent_never_set net0 _
    (Relation.ReflTransGen.single
      (NetStep.create_utxo net0 id AddressType.P2TR 22 1 "w0" "wpriv"))
    (fun u hu => absurd hu (List.not_mem_nil u))

end BitcoinQuantumSim
